import Mathlib

/-!
Verification of the extraction and normalization pipeline of `price_tracker.py`.

The development shallowly embeds the pure core of the tracker:

* `parse_price`  — the price normalizer (source lines 79-100);
* `sel_one`      — the field extractor (source lines 71-77);
* `load_config`  — the rule-catalog loader (source lines 47-54);
* `extract`      — the page-extractor orchestrator (source lines 102-115);
* `save_history` / `last_price_for` — the append-only history log
  (source lines 117-145).

Python strings are modelled as `List Char`.  Python `float` values are
modelled exactly, as sign-carrying decimal numbers (`Dec`): every value this
program ever produces comes from `float(<decimal literal>)`, and CPython
guarantees that `float(str(x)) == x`, so the decimal model is faithful for
every property stated here.  The model of `float(...)` covers the plain
positional decimal grammar (optional sign, digits, one optional point);
exponent notation, `inf`/`nan` and underscores never occur in the strings
this program feeds to `float`.  The collaborators (network fetch, the
BeautifulSoup document, the CSV layer) are modelled by their documented
behaviour: a parsed document is a list of nodes in document order, each
recording which individual selector alternatives match it, and CSS selector
groups (comma-separated) match in document order.
-/

set_option linter.unusedVariables false

deriving instance DecidableEq for Except

abbrev Str := List Char

/-- Python `str.strip()`: drop leading and trailing whitespace. -/
def pyTrim (l : Str) : Str :=
  ((l.dropWhile Char.isWhitespace).reverse.dropWhile Char.isWhitespace).reverse

/-- Python `needle in hay` on strings: substring containment. -/
def subMem (needle : Str) : Str → Bool
  | [] => needle.isEmpty
  | c :: t => needle.isPrefixOf (c :: t) || subMem needle t

/-- Python `hay.rfind(c)` for a single-character needle: index of the last
occurrence, `-1` when absent. -/
def rfind (c : Char) : Str → Int
  | [] => -1
  | x :: t => if rfind c t ≥ 0 then rfind c t + 1 else if x = c then 0 else -1

/-- Python `s.split(sep)` for a single-character separator. -/
def splitOnChar (c : Char) : Str → List Str
  | [] => [[]]
  | x :: t =>
    if x = c then [] :: splitOnChar c t
    else
      match splitOnChar c t with
      | s :: rest => (x :: s) :: rest
      | [] => [[x]]

/-- Decimal model of a Python `float` value: the number `man / 10 ^ exp`.
A value is `normalized` when no trailing decimal zero is left in the
fractional part, which makes the representation canonical. -/
structure Dec where
  man : Int
  exp : Nat
deriving DecidableEq, Repr

/-- Canonical representatives: either no fractional digits, or a fractional
part that does not end in zero. -/
def Dec.normalized (d : Dec) : Prop := d.exp = 0 ∨ ¬ d.man % 10 = 0

instance (d : Dec) : Decidable d.normalized := by
  unfold Dec.normalized; infer_instance

/-- Strip trailing fractional zeros, yielding the canonical representative
of the same numeric value. -/
def normalizeDec (m : Int) : Nat → Dec
  | 0 => ⟨m, 0⟩
  | e + 1 => if m % 10 = 0 then normalizeDec (m / 10) e else ⟨m, e + 1⟩

/-- Numeric reading of digit characters, most significant first. -/
def natOfChars (l : Str) : Nat :=
  l.foldl (fun a c => a * 10 + (c.toNat - 48)) 0

/-- Unsigned part of the Python `float(...)` grammar: digits with at most one
decimal point and at least one digit. -/
def parseUnsignedDec (l : Str) : Option Dec :=
  match splitOnChar '.' l with
  | [ip] =>
    if ip ≠ [] ∧ ip.all Char.isDigit then some (normalizeDec (natOfChars ip) 0)
    else none
  | [ip, fp] =>
    if ip ++ fp ≠ [] ∧ (ip ++ fp).all Char.isDigit then
      some (normalizeDec (natOfChars (ip ++ fp)) fp.length)
    else none
  | _ => none

/-- Python `float(s)` on the positional decimal grammar: optional
whitespace, optional sign, digits with one optional decimal point.
Returns `none` where CPython raises `ValueError`. -/
def pyFloat (s : Str) : Option Dec :=
  let t := pyTrim s
  if t ≠ [] ∧ t.headD ' ' = '-' then
    (parseUnsignedDec t.tail).map (fun d => ⟨-d.man, d.exp⟩)
  else if t ≠ [] ∧ t.headD ' ' = '+' then parseUnsignedDec t.tail
  else parseUnsignedDec t

/-- Decimal digit character of a single digit value. -/
def digitChar (d : Nat) : Char := Char.ofNat (48 + d)

/-- Decimal digit characters of a natural number, most significant first. -/
def natDigits (n : Nat) : Str :=
  if n = 0 then ['0'] else ((Nat.digits 10 n).map digitChar).reverse

/-- Pad a digit string with leading zeros up to width `k`. -/
def padZeros (k : Nat) (l : Str) : Str :=
  List.replicate (k - l.length) '0' ++ l

/-- Python `str(...)` of a non-negative float value `n / 10 ^ e`:
always carries a decimal point, printing `".0"` for integral values. -/
def pyStrNat (n : Nat) (e : Nat) : Str :=
  if e = 0 then natDigits n ++ ['.', '0']
  else
    let ds := padZeros (e + 1) (natDigits n)
    ds.take (ds.length - e) ++ '.' :: ds.drop (ds.length - e)

/-- Python `str(...)` of a float value (as written by `csv.writer`). -/
def pyStr (d : Dec) : Str :=
  if d.man < 0 then '-' :: pyStrNat d.man.natAbs d.exp
  else pyStrNat d.man.toNat d.exp

/-! ## The price normalizer (`parse_price`, source lines 79-100) -/

/-- Source `CURRENCY_SIGNS` (line 42), in dictionary insertion order. -/
def CURRENCY_SIGNS : List (Str × Str) :=
  [("€".toList, "EUR".toList), ("$".toList, "USD".toList),
   ("£".toList, "GBP".toList), ("CHF".toList, "CHF".toList)]

/-- The currency scan of `parse_price` (lines 83-87): first sign found as a
substring of the stripped text wins. -/
def scanCurrency (txt : Str) : Option Str :=
  (CURRENCY_SIGNS.find? (fun p => subMem p.1 txt)).map (fun p => p.2)

/-- Characters kept by `re.sub(r"[^\d,.\-]", "", txt)` (line 88). -/
def keepChar (c : Char) : Bool :=
  c.isDigit || c = ',' || c = '.' || c = '-'

/-- The "digits string" of a raw price text: line 88 applied to the
stripped input. -/
def digitsStringOf (r : Str) : Str := (pyTrim r).filter keepChar

/-- The price normalizer, `parse_price` (lines 79-100).  `none` input models
Python `None`; the empty string is equally falsy for `if not raw`. -/
def parse_price (raw : Option Str) : Option Dec × Option Str :=
  match raw with
  | none => (none, none)
  | some r =>
    if r = [] then (none, none)
    else
      let txt := pyTrim r
      let currency := scanCurrency txt
      let cleaned := digitsStringOf r
      let cleaned2 :=
        if ',' ∈ cleaned ∧ rfind ',' cleaned > rfind '.' cleaned then
          (cleaned.filter (fun c => c ≠ '.')).map
            (fun c => if c = ',' then '.' else c)
        else
          let parts := splitOnChar '.' cleaned
          if parts.length > 2 then
            ((parts.dropLast.flatten).filter (fun c => c ≠ ',')) ++
              '.' :: parts.getLastD []
          else cleaned.filter (fun c => c ≠ ',')
      (pyFloat cleaned2, currency)

/-! ## The parsed document and the field extractor (`sel_one`, lines 71-77) -/

/-- A node of the parsed document, as the core observes it through
BeautifulSoup: its attribute dictionary, the result of
`get_text(" ", strip=True)`, and the set of individual selector
alternatives the CSS engine judges to match it. -/
structure Node where
  attrs : List (Str × Str)
  text : Str
  matchedBy : List Str
deriving DecidableEq, Repr

/-- BeautifulSoup `Tag.get(key)`: attribute lookup, `none` when absent. -/
def Node.get (n : Node) (key : Str) : Option Str :=
  (n.attrs.find? (fun p => p.1 = key)).map (fun p => p.2)

/-- The alternatives of a CSS selector group: split on commas and strip,
as the selector engine does. -/
def splitAlts (css : Str) : List Str :=
  (splitOnChar ',' css).map pyTrim

/-- BeautifulSoup `soup.select_one(css)`: the first node in document order
matching any alternative of the selector group. -/
def select_one (soup : List Node) (css : Str) : Option Node :=
  soup.find? (fun n => (splitAlts css).any (fun alt => n.matchedBy.contains alt))

/-- Exceptions the embedded code can raise. -/
inductive PyExc where
  | attributeError
  | typeError
deriving DecidableEq, Repr

/-- Python `s or None`: the empty string collapses to absence. -/
def orNone (s : Str) : Option Str := if s = [] then none else some s

/-- Truthiness of the optional attribute name (`if attr`): both `None` and
the empty string are falsy. -/
def attrTruthy : Option Str → Bool
  | some (c :: cs) => true
  | _ => false

/-- The field extractor `sel_one` (lines 71-77).  Mirrors
`(el.get(attr).strip() if attr else el.get_text(" ", strip=True)) or None`:
when the rule names an attribute that is absent on the matched node,
`el.get(attr)` is `None` and `.strip()` raises `AttributeError`. -/
def sel_one (soup : List Node) (css : Str) (attr : Option Str) :
    Except PyExc (Option Str) :=
  if css = [] then .ok none
  else
    match select_one soup css with
    | none => .ok none
    | some el =>
      if attrTruthy attr then
        match el.get (attr.getD []) with
        | some v => .ok (orNone (pyTrim v))
        | none => .error .attributeError
      else .ok (orNone el.text)

/-! ## The rule catalog (`DEFAULT_SELECTORS`, `load_config`, lines 21-54) -/

/-- One field rule: a selector group plus an optional attribute name. -/
structure FieldRule where
  css : Str
  attr : Option Str
deriving DecidableEq, Repr

/-- One catalog entry: the three field rules. -/
structure RuleSet where
  title : FieldRule
  price : FieldRule
  currency : FieldRule
deriving DecidableEq, Repr

/-- A rule catalog: a Python dict from origin to entry.  A value `none`
models a falsy entry a caller-supplied JSON override may carry (JSON
`null`, an empty object, ...); built-in entries are always `some`. -/
abbrev Catalog := List (Str × Option RuleSet)

/-- Python `d.get(k)` on the catalog dict. -/
def alistGet (l : Catalog) (k : Str) : Option (Option RuleSet) :=
  match l with
  | [] => none
  | (k2, v) :: t => if k2 = k then some v else alistGet t k

/-- Python `d[k] = v`: replace in place or append. -/
def dictSet (l : Catalog) (k : Str) (v : Option RuleSet) : Catalog :=
  match l with
  | [] => [(k, v)]
  | (k2, v2) :: t => if k2 = k then (k2, v) :: t else (k2, v2) :: dictSet t k v

/-- Python `base.update(custom)`: key-wise overlay. -/
def dictUpdate (base custom : Catalog) : Catalog :=
  custom.foldl (fun acc p => dictSet acc p.1 p.2) base

/-- The `"generic"` entry of `DEFAULT_SELECTORS` (lines 22-29). -/
def genericRules : RuleSet :=
  { title := { css := "meta[property=\x27og:title\x27], h1".toList, attr := none },
    price := { css := "[itemprop=\x27price\x27], meta[property=\x27product:price:amount\x27], .price, .product-price, [data-price]".toList,
               attr := some "content".toList },
    currency := { css := "meta[property=\x27product:price:currency\x27], [itemprop=\x27priceCurrency\x27]".toList,
                  attr := some "content".toList } }

/-- The `"www.fnac.com"` entry of `DEFAULT_SELECTORS` (lines 30-34). -/
def fnacRules : RuleSet :=
  { title := { css := "h1".toList, attr := none },
    price := { css := "[data-test=\x27price\x27] .f-priceBox-price, .f-priceBox-price".toList,
               attr := none },
    currency := { css := [], attr := none } }

/-- The `"www.cdiscount.com"` entry of `DEFAULT_SELECTORS` (lines 35-39). -/
def cdiscountRules : RuleSet :=
  { title := { css := "h1".toList, attr := none },
    price := { css := ".fpPrice.price, .jsMainPrice".toList, attr := none },
    currency := { css := [], attr := none } }

/-- Source `DEFAULT_SELECTORS` (lines 21-40). -/
def DEFAULT_SELECTORS : Catalog :=
  [("generic".toList, some genericRules),
   ("www.fnac.com".toList, some fnacRules),
   ("www.cdiscount.com".toList, some cdiscountRules)]

/-- The catalog loader `load_config` (lines 47-54).  `fs` models the file
system: the parsed JSON override a path holds, `none` when the file does
not exist.  `if path and os.path.exists(path)`: a `None` path, an empty
path and a missing file all fall back to the built-in defaults. -/
def load_config (path : Option Str) (fs : Str → Option Catalog) : Catalog :=
  match path with
  | some p =>
    if p ≠ [] ∧ (fs p).isSome then dictUpdate DEFAULT_SELECTORS ((fs p).getD [])
    else DEFAULT_SELECTORS
  | none => DEFAULT_SELECTORS

/-- Rule resolution as written on line 106:
`selectors_map.get(domain) or selectors_map.get("generic")`.  Python `or`
takes the right operand whenever the left is `None` or falsy. -/
def resolveRules (m : Catalog) (domain : Str) : Option RuleSet :=
  match alistGet m domain with
  | some (some rs) => some rs
  | _ => Option.join (alistGet m "generic".toList)

/-! ## The page extractor (`extract`, lines 102-115) -/

/-- `get_domain` (lines 44-45): the lowercased host of the URL.  Models
`urllib.parse.urlparse(url).netloc.lower()` for scheme-carrying URLs; a URL
without `://` has an empty netloc. -/
def afterScheme : Str → Option Str
  | ':' :: '/' :: '/' :: rest => some rest
  | _ :: t => afterScheme t
  | [] => none

/-- The lowercased host portion of a URL. -/
def get_domain (url : Str) : Str :=
  match afterScheme url with
  | some r => (r.takeWhile (fun c => c ≠ '/')).map Char.toLower
  | none => []

/-- The extraction record (line 115). -/
structure Record where
  url : Str
  domain : Str
  title : Str
  price : Option Dec
  currency : Option Str
deriving DecidableEq, Repr

/-- The page extractor `extract` (lines 102-115).  The network fetch and the
HTML parse are collaborators: the model receives the parsed document, as in
the component contract `extract(url, parsedDocument, catalog)`.  Any
exception escaping a field extraction propagates out of `extract`. -/
def extract (url : Str) (soup : List Node) (selectors_map : Catalog) :
    Except PyExc Record :=
  let domain := get_domain url
  match resolveRules selectors_map domain with
  | none => .error .typeError
  | some rules =>
    match sel_one soup rules.title.css rules.title.attr with
    | .error e => .error e
    | .ok title =>
      match sel_one soup rules.price.css rules.price.attr with
      | .error e => .error e
      | .ok price_raw =>
        match (if rules.currency.css ≠ [] then
                 sel_one soup rules.currency.css rules.currency.attr
               else .ok none) with
        | .error e => .error e
        | .ok curr_from_rule =>
          let pc := parse_price price_raw
          let currency :=
            if pc.2.isNone ∧ curr_from_rule.isSome then
              curr_from_rule.map (fun s => (pyTrim s).map Char.toUpper)
            else pc.2
          .ok { url := url, domain := domain, title := title.getD [],
                price := pc.1, currency := currency }

/-! ## The history log (`save_history` / `last_price_for`, lines 117-145) -/

/-- One data row of `history.csv`, after the CSV layer: the six text
fields written on lines 124-131. -/
structure HRow where
  timestamp : Str
  domain : Str
  url : Str
  title : Str
  price : Str
  currency : Str
deriving DecidableEq, Repr

/-- The row `save_history` writes for a record: an absent price serializes
as the empty field, a present one through `str(float)`. -/
def historyRow (ts : Str) (row : Record) : HRow :=
  { timestamp := ts, domain := row.domain, url := row.url, title := row.title,
    price := match row.price with | some p => pyStr p | none => [],
    currency := row.currency.getD [] }

/-- `save_history` (lines 117-131) on the log state: `none` models a file
that does not exist yet (the header row the code writes first is consumed
by `csv.DictReader` on the way back and is abstracted into this layer). -/
def save_history (row : Record) (ts : Str) (file : Option (List HRow)) :
    Option (List HRow) :=
  some (file.getD [] ++ [historyRow ts row])

/-- One scan step of `last_price_for`: rows with a matching URL and a
non-empty price field update the running value when `float(...)` succeeds;
the bare `except: pass` keeps the previous value otherwise. -/
def lastPriceStep (url : Str) (last : Option Dec) (r : HRow) : Option Dec :=
  if r.url = url ∧ r.price ≠ [] then
    match pyFloat r.price with
    | some v => some v
    | none => last
  else last

/-- `last_price_for` (lines 133-145): `none` when the log file does not
exist, otherwise the last parsed price of a matching row. -/
def last_price_for (url : Str) (file : Option (List HRow)) : Option Dec :=
  match file with
  | none => none
  | some rows => rows.foldl (lastPriceStep url) none

/-! ## Definitions taken from the wording of the specification

These definitions follow the words of the spec sentences under test, to be
compared against the embedded source functions above. -/

/-- The spec wording for the both-separators case of the normalizer:
whichever separator is rightmost is the decimal separator, the other is
removed, and a decimal comma is rewritten to a point. -/
def specRightmostNormalize (cl : Str) : Str :=
  if rfind ',' cl > rfind '.' cl then
    (cl.filter (fun c => c ≠ '.')).map (fun c => if c = ',' then '.' else c)
  else cl.filter (fun c => c ≠ ',')

/-- The spec wording for selector groups: alternatives tried in order, the
first alternative with any match wins. -/
def specAltFirstSelect (soup : List Node) (css : Str) : Option Node :=
  (splitAlts css).findSome? (fun alt => soup.find? (fun n => n.matchedBy.contains alt))

/-- The rightmost of the two separator characters of a digits string,
read off the reversed string. -/
def rightmostSep : Str → Option Char
  | [] => none
  | x :: t =>
    match rightmostSep t with
    | some s => some s
    | none => if x = ',' ∨ x = '.' then some x else none

/-- The both-separators normalization the code actually performs: a
rightmost `,` is the decimal separator (points removed, comma rewritten);
with a rightmost `.` every comma is dropped and, when more than two
point-separated segments remain, all but the last are joined as the
integer part. -/
def amendedNormalize (cl : Str) : Str :=
  if rightmostSep cl = some ',' then
    (cl.filter (fun c => c ≠ '.')).map (fun c => if c = ',' then '.' else c)
  else
    let parts := splitOnChar '.' cl
    if parts.length > 2 then
      ((parts.dropLast.flatten).filter (fun c => c ≠ ',')) ++
        '.' :: parts.getLastD []
    else cl.filter (fun c => c ≠ ',')

/-! ## Concrete pages and inputs used by the individual claims -/

/-- A page whose only price-bearing element carries class `price` but no
`content` attribute — a layout the generic rule set is meant to degrade
on gracefully. -/
def c1doc : List Node :=
  [{ attrs := [], text := "19,99 €".toList, matchedBy := [".price".toList] }]

/-- A page with two nodes matching the generic price rule: one without the
`content` attribute and one carrying it. -/
def c2doc : List Node :=
  [{ attrs := [("id".toList, "p1".toList)], text := "19,99 €".toList,
     matchedBy := [".price".toList] }]

/-- A single node that does carry the attribute, with padding whitespace. -/
def c2docWithAttr : List Node :=
  [{ attrs := [("content".toList, " 12.5 ".toList)], text := [],
     matchedBy := [".price".toList] }]

/-- A page where an `h1` element precedes the `og:title` meta element in
document order. -/
def c5doc : List Node :=
  [{ attrs := [], text := "B".toList, matchedBy := ["h1".toList] },
   { attrs := [], text := "A".toList,
     matchedBy := ["meta[property=\x27og:title\x27]".toList] }]

/-- The generic title selector group (two alternatives). -/
def genericTitleCss : Str := "meta[property=\x27og:title\x27], h1".toList

/-! ## Claim C1 and C2: the absent-attribute crash -/

/-- Claim C1: the claim states that `extract` raises no errors of its own
and always returns a structured record.  The code contradicts it: with the
built-in default catalog, a page whose matched price element lacks the
`content` attribute makes `sel_one` evaluate `el.get(attr).strip()` on
`None`, and the `AttributeError` escapes `extract`. -/
theorem c1_extract_raises_on_missing_attr :
    extract "https://shop.example/item".toList c1doc DEFAULT_SELECTORS =
      .error .attributeError := by decide

/-- Claim C2: the claim states that with an attribute-bearing rule,
a present attribute is returned trimmed and an absent attribute degrades
to absence without failing.  The first half holds, but on a matched node
without the attribute `sel_one` raises `AttributeError` instead of
returning absence. -/
theorem c2_sel_one_raises_on_missing_attr :
    sel_one c2doc ".price".toList (some "content".toList) =
        .error .attributeError ∧
      sel_one c2docWithAttr ".price".toList (some "content".toList) =
        .ok (some "12.5".toList) := by decide

/-! ## Claim C9: no non-negativity constraint -/

/-- Claim C9: `parse_price` imposes no non-negativity constraint: the minus
sign survives the character filter and `"-5.00 €"` parses to the negative
price `-5.0` with currency hint `EUR`. -/
theorem c9_negative_price :
    parse_price (some "-5.00 €".toList) =
        (some ⟨-5, 0⟩, some "EUR".toList) ∧
      (⟨-5, 0⟩ : Dec).man < 0 := by decide

/-! ## Claim C10: loader fallback -/

/-- Claim C10: with an absent override path or a path naming no existing
file, `load_config` returns the built-in default catalog unchanged. -/
theorem c10_load_config_defaults (path : Option Str) (fs : Str → Option Catalog)
    (h : path = none ∨ ∃ p, path = some p ∧ fs p = none) :
    load_config path fs = DEFAULT_SELECTORS := by
  rcases h with rfl | ⟨p, rfl, hfs⟩
  · rfl
  · simp [load_config, hfs]

/-- Witness for C10 at a concrete path over an empty file system. -/
theorem c10_witness :
    load_config (some "conf.json".toList) (fun _ => none) = DEFAULT_SELECTORS :=
  c10_load_config_defaults _ _ (Or.inr ⟨_, rfl, rfl⟩)

/-! ## Claim C3, counterexample part -/

/-- Claim C3 counterexample: on the digits string `1,2.3.4` (both
separators present, `.` rightmost) the claimed rightmost-separator
procedure yields `12.3.4`, which fails to parse, so the claim predicts an
absent price; the code instead joins the extra point-separated segments
and returns `123.4`. -/
theorem c3_counterexample :
    parse_price (some "1,2.3.4".toList) = (some ⟨1234, 1⟩, none) ∧
      pyFloat (specRightmostNormalize (digitsStringOf "1,2.3.4".toList)) =
        none ∧
      (',' ∈ digitsStringOf "1,2.3.4".toList ∧
        '.' ∈ digitsStringOf "1,2.3.4".toList) := by decide

/-! ## Claim C5, counterexample part -/

/-- Claim C5 counterexample: with the generic title selector group, the
`h1` node earlier in document order wins even though the `og:title`
alternative is listed first, so selection is not
first-alternative-with-any-match. -/
theorem c5_counterexample :
    sel_one c5doc genericTitleCss none = .ok (some "B".toList) ∧
      (specAltFirstSelect c5doc genericTitleCss).map Node.text =
        some "A".toList ∧
      select_one c5doc genericTitleCss ≠ specAltFirstSelect c5doc genericTitleCss := by
  decide

/-! ## Claim C5, amended part -/

/-- Helper: the first element satisfying a predicate is the head of the
filtered list. -/
theorem find?_eq_head?_filter {α : Type} (p : α → Bool) :
    ∀ l : List α, l.find? p = (l.filter p).head?
  | [] => rfl
  | x :: t => by
    by_cases h : p x
    · rw [List.find?_cons_of_pos _ h, List.filter_cons_of_pos h]
      rfl
    · rw [List.find?_cons_of_neg _ h, List.filter_cons_of_neg h,
        find?_eq_head?_filter p t]

/-- Claim C5 amended: selection over a selector group returns the first
matching node in document order across all alternatives merged (not the
first alternative with any match). -/
theorem c5_amended (soup : List Node) (css : Str) :
    select_one soup css =
      (soup.filter
        (fun n => (splitAlts css).any (fun alt => n.matchedBy.contains alt))).head? :=
  find?_eq_head?_filter _ soup

/-! ## Claim C8: the last-price scan -/

/-- Helper: the last entry of a non-empty list exists. -/
theorem getLast?_cons_isSome {α : Type} :
    ∀ (x : α) (t : List α), ∃ w, (x :: t).getLast? = some w
  | x, [] => ⟨x, rfl⟩
  | x, y :: t => by rw [List.getLast?_cons_cons]; exact getLast?_cons_isSome y t

/-- Helper: the running fold of `last_price_for` lands on the last entry of
the filter-parsed row list, keeping the accumulator when nothing qualifies. -/
theorem foldl_lastPriceStep (url : Str) (rows : List HRow) :
    ∀ acc, rows.foldl (lastPriceStep url) acc =
      ((rows.filterMap (fun r =>
        if r.url = url ∧ r.price ≠ [] then pyFloat r.price else none)).getLast?).elim acc some := by
  induction rows with
  | nil => intro acc; rfl
  | cons row t ih =>
    intro acc
    rw [List.foldl_cons]
    simp only [List.filterMap_cons]
    by_cases h : row.url = url ∧ row.price ≠ []
    · cases hp : pyFloat row.price with
      | none =>
        have hs : lastPriceStep url acc row = acc := by simp [lastPriceStep, h, hp]
        simp only [if_pos h, hp]
        rw [hs, ih acc]
      | some v =>
        have hs : lastPriceStep url acc row = some v := by simp [lastPriceStep, h, hp]
        simp only [if_pos h, hp]
        rw [hs, ih (some v)]
        cases hL : t.filterMap (fun r =>
            if r.url = url ∧ r.price ≠ [] then pyFloat r.price else none) with
        | nil => rfl
        | cons x t2 =>
          rw [List.getLast?_cons_cons]
          obtain ⟨w, hw⟩ := getLast?_cons_isSome x t2
          rw [hw]
          rfl
    · have hs : lastPriceStep url acc row = acc := by simp [lastPriceStep, h]
      simp only [if_neg h]
      rw [hs, ih acc]

/-- Claim C8: `last_price_for` is total (the bare `except` turns a parse
failure of a non-empty price field into a silent skip): the result is the
most recently appended matching row whose non-empty price field parses,
and absent when none does or the log file does not exist. -/
theorem c8_last_price_skips_unparseable (url : Str) (rows : List HRow) :
    last_price_for url none = none ∧
      last_price_for url (some rows) =
        (rows.filterMap (fun r =>
          if r.url = url ∧ r.price ≠ [] then pyFloat r.price else none)).getLast? := by
  refine ⟨rfl, ?_⟩
  show rows.foldl (lastPriceStep url) none = _
  rw [foldl_lastPriceStep url rows none]
  cases (rows.filterMap (fun r =>
      if r.url = url ∧ r.price ≠ [] then pyFloat r.price else none)).getLast? <;> rfl

/-! ## Claim C4: rule resolution over loader-produced catalogs -/

/-- Helper: `d[k] = v` updates the looked-up value of `k` and nothing else. -/
theorem alistGet_dictSet (k q : Str) (v : Option RuleSet) :
    ∀ l : Catalog, alistGet (dictSet l k v) q =
      if q = k then some v else alistGet l q
  | [] => by
    by_cases h : q = k
    · simp [dictSet, alistGet, h]
    · simp [dictSet, alistGet, h, Ne.symm h]
  | (k3, v3) :: t => by
    by_cases h3 : k3 = k
    · subst h3
      by_cases h : q = k3
      · simp [dictSet, alistGet, h]
      · simp [dictSet, alistGet, h, Ne.symm h]
    · by_cases h : q = k3
      · subst h
        simp [dictSet, alistGet, h3, Ne.symm h3]
      · simp [dictSet, alistGet, h3, h, Ne.symm h, alistGet_dictSet k q v t]

/-- Helper: a key present before a dict overlay is still present after it. -/
theorem alistGet_dictUpdate_isSome (k : Str) :
    ∀ (custom base : Catalog), (alistGet base k).isSome = true →
      (alistGet (dictUpdate base custom) k).isSome = true
  | [], base, h => h
  | (k2, v2) :: t, base, h => by
    apply alistGet_dictUpdate_isSome k t
    rw [alistGet_dictSet]
    by_cases he : k = k2 <;> simp [he, h]

/-- Helper: every catalog the loader produces keeps the `"generic"` key. -/
theorem load_config_generic_isSome (path : Option Str) (fs : Str → Option Catalog) :
    (alistGet (load_config path fs) "generic".toList).isSome = true := by
  have hdef : (alistGet DEFAULT_SELECTORS "generic".toList).isSome = true := by decide
  cases path with
  | none => exact hdef
  | some p =>
    rw [load_config]
    by_cases h : p ≠ [] ∧ (fs p).isSome
    · rw [if_pos h]
      exact alistGet_dictUpdate_isSome _ _ _ hdef
    · rw [if_neg h]
      exact hdef

/-- Claim C4 amended: over every loader-produced catalog, resolution
returns the origin's entry when the origin maps to a truthy (non-null)
rule set; when the origin is absent, or present with a falsy override
value, resolution falls back to the catalog's `"generic"` entry; and the
`"generic"` key is present in every loader-produced catalog (although an
override may have replaced its value, even by a falsy one). -/
theorem c4_amended (path : Option Str) (fs : Str → Option Catalog)
    (origin : Str) (rs : RuleSet) :
    (alistGet (load_config path fs) origin = some (some rs) →
        resolveRules (load_config path fs) origin = some rs) ∧
      ((alistGet (load_config path fs) origin = none ∨
          alistGet (load_config path fs) origin = some none) →
        resolveRules (load_config path fs) origin =
          Option.join (alistGet (load_config path fs) "generic".toList)) ∧
      (alistGet (load_config path fs) "generic".toList).isSome = true := by
  refine ⟨fun h => ?_, fun h => ?_, load_config_generic_isSome path fs⟩
  · rw [resolveRules, h]
  · rcases h with h | h <;> rw [resolveRules, h]

/-- Witness for C4 amended: with no override file, the fnac origin
resolves to its own entry and the generic key is present. -/
theorem c4_amended_witness :
    resolveRules (load_config none (fun _ => none)) "www.fnac.com".toList =
        some fnacRules ∧
      (alistGet (load_config none (fun _ => none)) "generic".toList).isSome = true :=
  ⟨(c4_amended none (fun _ => none) "www.fnac.com".toList fnacRules).1 (by decide),
    (c4_amended none (fun _ => none) "www.fnac.com".toList fnacRules).2.2⟩

/-- An override file mapping an origin to a falsy JSON value. -/
def c4override : Catalog := [("www.x.com".toList, none)]

/-- The catalog the loader builds from that override. -/
def c4cat : Catalog :=
  load_config (some "rules.json".toList) (fun _ => some c4override)

/-- Claim C4 counterexample: in the loader-produced catalog `c4cat` the
origin `www.x.com` is a key, yet resolution does not return that origin's
entry — it falls back to the generic entry instead. -/
theorem c4_counterexample :
    (alistGet c4cat "www.x.com".toList).isSome = true ∧
      resolveRules c4cat "www.x.com".toList ≠
        Option.join (alistGet c4cat "www.x.com".toList) ∧
      resolveRules c4cat "www.x.com".toList =
        Option.join (alistGet c4cat "generic".toList) := by decide

/-! ## Claim C3: the both-separators normalization -/

/-- Helper: `rfind` never goes below `-1`. -/
theorem rfind_ge_neg_one (c : Char) : ∀ l : Str, -1 ≤ rfind c l
  | [] => le_refl _
  | x :: t => by
    have ht := rfind_ge_neg_one c t
    simp only [rfind]
    by_cases h : rfind c t ≥ 0
    · rw [if_pos h]; omega
    · rw [if_neg h]
      by_cases hx : x = c
      · rw [if_pos hx]; omega
      · rw [if_neg hx]

/-- Helper: a character that occurs in the string has a non-negative
rightmost index. -/
theorem rfind_nonneg_of_mem (c : Char) : ∀ l : Str, c ∈ l → 0 ≤ rfind c l
  | [], h => absurd h (List.not_mem_nil c)
  | x :: t, h => by
    simp only [rfind]
    by_cases h0 : rfind c t ≥ 0
    · rw [if_pos h0]; omega
    · rw [if_neg h0]
      rcases List.mem_cons.mp h with rfl | hm
      · rw [if_pos rfl]
      · exact absurd (rfind_nonneg_of_mem c t hm) (by omega)

/-- Helper: `rightmostSep` only ever reports a separator character. -/
theorem rightmostSep_mem : ∀ (l : Str) (s : Char),
    rightmostSep l = some s → s = ',' ∨ s = '.'
  | [], s, h => by simp [rightmostSep] at h
  | x :: t, s, h => by
    simp only [rightmostSep] at h
    cases hS : rightmostSep t with
    | some s2 =>
      rw [hS] at h
      cases h
      exact rightmostSep_mem t s hS
    | none =>
      rw [hS] at h
      by_cases hx : x = ',' ∨ x = '.'
      · rw [if_pos hx] at h
        cases h
        exact hx
      · rw [if_neg hx] at h
        cases h

/-- Helper: the rightmost separator reported by `rightmostSep` is exactly
the one with the larger `rfind` index, and absence of a separator means
both `rfind` indices are `-1`. -/
theorem rightmostSep_rfind : ∀ l : Str,
    (rightmostSep l = some ',' → rfind '.' l < rfind ',' l) ∧
      (rightmostSep l = some '.' → rfind ',' l < rfind '.' l) ∧
      (rightmostSep l = none → rfind ',' l = -1 ∧ rfind '.' l = -1)
  | [] => by
    refine ⟨fun h => ?_, fun h => ?_, fun h => ⟨rfl, rfl⟩⟩ <;>
      simp [rightmostSep] at h
  | x :: t => by
    obtain ⟨ih1, ih2, ih3⟩ := rightmostSep_rfind t
    cases hS : rightmostSep t with
    | some s =>
      have hx : rightmostSep (x :: t) = some s := by
        simp only [rightmostSep, hS]
      rcases rightmostSep_mem t s hS with rfl | rfl
      · have h1 : rfind '.' t < rfind ',' t := ih1 hS
        have h2 : -1 ≤ rfind '.' t := rfind_ge_neg_one '.' t
        have hcomma : rfind ',' (x :: t) = rfind ',' t + 1 := by
          simp only [rfind]; rw [if_pos (by omega)]
        have hdot : rfind '.' (x :: t) ≤ rfind '.' t + 1 := by
          simp only [rfind]
          by_cases hd : rfind '.' t ≥ 0
          · rw [if_pos hd]
          · rw [if_neg hd]
            by_cases hx2 : x = '.'
            · rw [if_pos hx2]; omega
            · rw [if_neg hx2]; omega
        refine ⟨fun _ => by omega, fun hco => ?_, fun hco => ?_⟩ <;>
          rw [hx] at hco <;> simp at hco
      · have h1 : rfind ',' t < rfind '.' t := ih2 hS
        have h2 : -1 ≤ rfind ',' t := rfind_ge_neg_one ',' t
        have hdot : rfind '.' (x :: t) = rfind '.' t + 1 := by
          simp only [rfind]; rw [if_pos (by omega)]
        have hcomma : rfind ',' (x :: t) ≤ rfind ',' t + 1 := by
          simp only [rfind]
          by_cases hd : rfind ',' t ≥ 0
          · rw [if_pos hd]
          · rw [if_neg hd]
            by_cases hx2 : x = ','
            · rw [if_pos hx2]; omega
            · rw [if_neg hx2]; omega
        refine ⟨fun hco => ?_, fun _ => by omega, fun hco => ?_⟩ <;>
          rw [hx] at hco <;> simp at hco
    | none =>
      obtain ⟨h1, h2⟩ := ih3 hS
      have hcomma : rfind ',' (x :: t) = if x = ',' then 0 else -1 := by
        simp only [rfind]; rw [if_neg (by omega)]
      have hdot : rfind '.' (x :: t) = if x = '.' then 0 else -1 := by
        simp only [rfind]; rw [if_neg (by omega)]
      have hx : rightmostSep (x :: t) =
          if x = ',' ∨ x = '.' then some x else none := by
        simp only [rightmostSep, hS]
      by_cases hc : x = ','
      · subst hc
        refine ⟨fun _ => ?_, fun hco => ?_, fun hco => ?_⟩
        · rw [hcomma, hdot]; decide
        · rw [hx, if_pos (Or.inl rfl)] at hco; simp at hco
        · rw [hx, if_pos (Or.inl rfl)] at hco; simp at hco
      · by_cases hd : x = '.'
        · subst hd
          refine ⟨fun hco => ?_, fun _ => ?_, fun hco => ?_⟩
          · rw [hx, if_pos (Or.inr rfl)] at hco; simp at hco
          · rw [hcomma, hdot]; decide
          · rw [hx, if_pos (Or.inr rfl)] at hco; simp at hco
        · refine ⟨fun hco => ?_, fun hco => ?_, fun _ => ?_⟩
          · rw [hx, if_neg (by tauto)] at hco; cases hco
          · rw [hx, if_neg (by tauto)] at hco; cases hco
          · rw [hcomma, if_neg hc, hdot, if_neg hd]; exact ⟨rfl, rfl⟩

/-- Helper: with both separators present, the source condition
`cleaned.rfind(",") > cleaned.rfind(".")` says exactly that the rightmost
separator is the comma. -/
theorem bothSep_cond_iff (l : Str) (hc : ',' ∈ l) (hd : '.' ∈ l) :
    rfind '.' l < rfind ',' l ↔ rightmostSep l = some ',' := by
  obtain ⟨m1, m2, m3⟩ := rightmostSep_rfind l
  constructor
  · intro h
    cases hS : rightmostSep l with
    | none =>
      obtain ⟨e1, e2⟩ := m3 hS
      have := rfind_nonneg_of_mem ',' l hc
      omega
    | some s =>
      rcases rightmostSep_mem l s hS with rfl | rfl
      · rfl
      · exact absurd h (by have := m2 hS; omega)
  · exact m1

/-- Claim C3 amended: when the digits string holds both separators, a
rightmost `,` is decimal (points removed, comma rewritten to a point)
exactly as claimed, but a rightmost `.` sends the code through its shared
else-branch: every `,` is dropped and, when more than two point-separated
segments remain, all but the last are joined as the integer part; the
flagship example `"1.234,56 €"` still normalizes to `1234.56` with
currency `EUR`. -/
theorem c3_amended :
    (∀ raw : Str, ',' ∈ digitsStringOf raw → '.' ∈ digitsStringOf raw →
        parse_price (some raw) =
          (pyFloat (amendedNormalize (digitsStringOf raw)),
            scanCurrency (pyTrim raw))) ∧
      parse_price (some "1.234,56 €".toList) =
        (some ⟨123456, 2⟩, some "EUR".toList) := by
  constructor
  · intro raw hc hd
    have hraw : raw ≠ [] := by
      intro h
      subst h
      exact (by decide : ¬ (',' ∈ digitsStringOf [])) hc
    simp only [parse_price]
    rw [if_neg hraw]
    have hiff := bothSep_cond_iff (digitsStringOf raw) hc hd
    have hcl : (if ',' ∈ digitsStringOf raw ∧
          rfind ',' (digitsStringOf raw) > rfind '.' (digitsStringOf raw) then
        ((digitsStringOf raw).filter (fun c => c ≠ '.')).map
          (fun c => if c = ',' then '.' else c)
      else
        if (splitOnChar '.' (digitsStringOf raw)).length > 2 then
          (((splitOnChar '.' (digitsStringOf raw)).dropLast.flatten).filter
              (fun c => c ≠ ',')) ++
            '.' :: (splitOnChar '.' (digitsStringOf raw)).getLastD []
        else (digitsStringOf raw).filter (fun c => c ≠ ',')) =
        amendedNormalize (digitsStringOf raw) := by
      rw [amendedNormalize]
      by_cases hcase : rightmostSep (digitsStringOf raw) = some ','
      · rw [if_pos hcase, if_pos ⟨hc, hiff.mpr hcase⟩]
      · rw [if_neg hcase, if_neg (fun hcon => hcase (hiff.mp hcon.2))]
    rw [hcl]
  · decide

/-- Witness for C3 amended at a concrete both-separator input. -/
theorem c3_amended_witness :
    parse_price (some "9.876,5 €".toList) =
      (pyFloat (amendedNormalize (digitsStringOf "9.876,5 €".toList)),
        scanCurrency (pyTrim "9.876,5 €".toList)) :=
  c3_amended.1 "9.876,5 €".toList (by decide) (by decide)

/-! ## Claim C6: currency reconciliation precedence -/

/-- Claim C6: in every record `extract` returns, the final currency is the
in-price-text hint when present, otherwise the separately-extracted
currency field upper-cased and trimmed when present, otherwise absent. -/
theorem c6_currency_precedence (url : Str) (soup : List Node) (cat : Catalog)
    (rules : RuleSet) (t pr cfr : Option Str) (rec : Record)
    (hr : resolveRules cat (get_domain url) = some rules)
    (ht : sel_one soup rules.title.css rules.title.attr = .ok t)
    (hp : sel_one soup rules.price.css rules.price.attr = .ok pr)
    (hc : (if rules.currency.css ≠ [] then
            sel_one soup rules.currency.css rules.currency.attr
          else .ok none) = .ok cfr)
    (he : extract url soup cat = .ok rec) :
    rec.currency =
      match (parse_price pr).2 with
      | some hint => some hint
      | none => cfr.map (fun s => (pyTrim s).map Char.toUpper) := by
  simp only [extract, hr, ht, hp, hc] at he
  injection he with h2
  subst h2
  cases hpc : (parse_price pr).2 with
  | some hint => simp [hpc]
  | none =>
    cases cfr with
    | some s => simp [hpc]
    | none => simp [hpc]

/-- A page carrying a price without any currency sign and a dedicated
currency element, to exercise the fallback branch of the reconciliation. -/
def c6doc : List Node :=
  [{ attrs := [("content".toList, "1234.56".toList)], text := [],
     matchedBy := [".price".toList] },
   { attrs := [("content".toList, " eur ".toList)], text := [],
     matchedBy := ["[itemprop=\x27priceCurrency\x27]".toList] }]

/-- Witness for C6: a concrete extraction whose currency comes from the
dedicated field, upper-cased and trimmed. -/
theorem c6_witness :
    ({ url := "https://shop.example/item".toList,
       domain := "shop.example".toList, title := [],
       price := some ⟨123456, 2⟩,
       currency := some "EUR".toList } : Record).currency =
      match (parse_price (some "1234.56".toList)).2 with
      | some hint => some hint
      | none => (some "eur".toList).map (fun s => (pyTrim s).map Char.toUpper) :=
  c6_currency_precedence "https://shop.example/item".toList c6doc
    DEFAULT_SELECTORS genericRules none (some "1234.56".toList)
    (some "eur".toList) _
    (by decide) (by decide) (by decide) (by decide) (by decide)

/-! ## Claim C7: print/parse facts for the history round-trip -/

/-- Helper: a digit character is never one of the special characters the
float grammar treats specially. -/
theorem ne_of_isDigit {x : Char} (h : x.isDigit = true) (c : Char)
    (hc : c.isDigit = false) : x ≠ c := by
  intro he
  subst he
  rw [h] at hc
  cases hc

/-- Helper: a digit character is not whitespace. -/
theorem not_ws_of_isDigit {x : Char} (h : x.isDigit = true) :
    x.isWhitespace = false := by
  by_cases h1 : x = ' '
  · subst h1; exact absurd h (by decide)
  by_cases h2 : x = '\t'
  · subst h2; exact absurd h (by decide)
  by_cases h3 : x = '\r'
  · subst h3; exact absurd h (by decide)
  by_cases h4 : x = '\n'
  · subst h4; exact absurd h (by decide)
  simp [Char.isWhitespace, h1, h2, h3, h4]

/-- Helper: `digitChar` of a digit value is a digit character. -/
theorem digitChar_isDigit {d : Nat} (h : d < 10) :
    (digitChar d).isDigit = true := by
  interval_cases d <;> decide

/-- Helper: reading back a digit character recovers the digit. -/
theorem digitChar_val {d : Nat} (h : d < 10) :
    (digitChar d).toNat - 48 = d := by
  interval_cases d <;> decide

/-- Helper: every character of `natDigits n` is a digit. -/
theorem natDigits_all_isDigit (n : Nat) :
    ∀ x ∈ natDigits n, x.isDigit = true := by
  rw [natDigits]
  by_cases h : n = 0
  · rw [if_pos h]; intro x hx; simp at hx; subst hx; decide
  · rw [if_neg h]
    intro x hx
    rw [List.mem_reverse] at hx
    obtain ⟨d, hd, rfl⟩ := List.mem_map.mp hx
    exact digitChar_isDigit (Nat.digits_lt_base (by norm_num) hd)

/-- Helper: the digit string of a number is never empty. -/
theorem natDigits_ne_nil (n : Nat) : natDigits n ≠ [] := by
  rw [natDigits]
  by_cases h : n = 0
  · rw [if_pos h]; simp
  · rw [if_neg h]
    intro hc
    rw [List.reverse_eq_nil_iff] at hc
    rw [List.map_eq_nil_iff] at hc
    exact Nat.digits_ne_nil_iff_ne_zero.mpr h hc

/-- Helper: reading most-significant-first digit characters, with an
accumulator, is reading the little-endian digit list. -/
theorem foldl_digit_acc :
    ∀ L : List Nat, (∀ d ∈ L, d < 10) → ∀ a : Nat,
      List.foldl (fun acc c => acc * 10 + (c.toNat - 48)) a
          ((L.map digitChar).reverse) =
        Nat.ofDigits 10 L + a * 10 ^ L.length
  | [], _, a => by simp
  | d :: T, h, a => by
    have hd : d < 10 := h d (List.mem_cons_self d T)
    have hT : ∀ x ∈ T, x < 10 := fun x hx => h x (List.mem_cons_of_mem d hx)
    rw [List.map_cons, List.reverse_cons, List.foldl_append,
      foldl_digit_acc T hT a, List.foldl_cons, List.foldl_nil,
      digitChar_val hd, Nat.ofDigits_cons, List.length_cons]
    ring

/-- Helper: reading back the printed digits of `n` recovers `n`. -/
theorem natOfChars_natDigits (n : Nat) : natOfChars (natDigits n) = n := by
  rw [natDigits]
  by_cases h : n = 0
  · rw [if_pos h, h]; decide
  · rw [if_neg h]
    show List.foldl _ 0 _ = n
    rw [foldl_digit_acc (Nat.digits 10 n)
      (fun d hd => Nat.digits_lt_base (by norm_num) hd) 0]
    simp [Nat.ofDigits_digits]

/-- Helper: leading zero characters do not change the value read. -/
theorem natOfChars_pad (l : Str) : ∀ k : Nat,
    natOfChars (List.replicate k '0' ++ l) = natOfChars l
  | 0 => by simp
  | k + 1 => by
    have h0 : (0 * 10 + ('0'.toNat - 48)) = 0 := by decide
    rw [List.replicate_succ, List.cons_append]
    show List.foldl _ 0 _ = _
    rw [List.foldl_cons, h0]
    exact natOfChars_pad l k

/-- Helper: reading an appended string continues the fold. -/
theorem natOfChars_append (a b : Str) :
    natOfChars (a ++ b) =
      List.foldl (fun acc c => acc * 10 + (c.toNat - 48)) (natOfChars a) b := by
  rw [natOfChars, List.foldl_append]
  rfl

/-- Helper: splitting a string without the separator yields one segment. -/
theorem splitOnChar_no_sep (c : Char) :
    ∀ l : Str, (∀ x ∈ l, x ≠ c) → splitOnChar c l = [l]
  | [], _ => rfl
  | x :: t, h => by
    rw [splitOnChar, if_neg (h x (List.mem_cons_self x t)),
      splitOnChar_no_sep c t (fun y hy => h y (List.mem_cons_of_mem x hy))]

/-- Helper: splitting around a single separator occurrence yields exactly
the two surrounding segments. -/
theorem splitOnChar_point (c : Char) :
    ∀ a b : Str, (∀ x ∈ a, x ≠ c) → (∀ x ∈ b, x ≠ c) →
      splitOnChar c (a ++ c :: b) = [a, b]
  | [], b, _, hb => by
    rw [List.nil_append, splitOnChar, if_pos rfl, splitOnChar_no_sep c b hb]
  | x :: a, b, ha, hb => by
    rw [List.cons_append, splitOnChar, if_neg (ha x (List.mem_cons_self x a)),
      splitOnChar_point c a b (fun y hy => ha y (List.mem_cons_of_mem x hy)) hb]

/-- Helper: `dropWhile` is the identity when no element satisfies the
predicate. -/
theorem dropWhile_eq_self_of_all {p : Char → Bool} :
    ∀ l : Str, (∀ x ∈ l, p x = false) → l.dropWhile p = l
  | [], _ => rfl
  | x :: t, h => by
    rw [List.dropWhile_cons, h x (List.mem_cons_self x t)]
    simp

/-- Helper: stripping a string without whitespace is the identity. -/
theorem pyTrim_eq_self (l : Str) (h : ∀ x ∈ l, x.isWhitespace = false) :
    pyTrim l = l := by
  rw [pyTrim, dropWhile_eq_self_of_all l h,
    dropWhile_eq_self_of_all l.reverse (fun x hx => h x (List.mem_reverse.mp hx)),
    List.reverse_reverse]

/-- Helper: `normalizeDec` fixes an already-canonical pair. -/
theorem normalizeDec_eq_self (m : Int) (e : Nat) (h : e = 0 ∨ ¬ m % 10 = 0) :
    normalizeDec m e = ⟨m, e⟩ := by
  cases e with
  | zero => rfl
  | succ e =>
    rcases h with h | h
    · cases h
    · rw [normalizeDec, if_neg h]

/-- Helper: `normalizeDec` always produces a canonical pair. -/
theorem normalizeDec_normalized : ∀ (e : Nat) (m : Int),
    (normalizeDec m e).normalized
  | 0, m => Or.inl rfl
  | e + 1, m => by
    rw [normalizeDec]
    by_cases h : m % 10 = 0
    · rw [if_pos h]; exact normalizeDec_normalized e (m / 10)
    · rw [if_neg h]; exact Or.inr h

/-- Helper: every successful unsigned parse is canonical. -/
theorem parseUnsignedDec_normalized (l : Str) (d : Dec)
    (h : parseUnsignedDec l = some d) : d.normalized := by
  rw [parseUnsignedDec] at h
  rcases hs : splitOnChar '.' l with _ | ⟨ip, _ | ⟨fp, _ | _⟩⟩ <;>
    rw [hs] at h <;> dsimp only at h
  · cases h
  · split_ifs at h with hcond
    cases h
    exact normalizeDec_normalized 0 _
  · split_ifs at h with hcond
    cases h
    exact normalizeDec_normalized _ _
  · cases h

/-- Helper: every successful float parse is canonical. -/
theorem pyFloat_normalized (s : Str) (d : Dec) (h : pyFloat s = some d) :
    d.normalized := by
  rw [pyFloat] at h
  split_ifs at h with h1 h2
  · rcases hu : parseUnsignedDec (pyTrim s).tail with _ | u <;> rw [hu] at h
    · cases h
    · dsimp only [Option.map] at h
      cases h
      rcases parseUnsignedDec_normalized _ _ hu with he | hm
      · exact Or.inl he
      · refine Or.inr (fun hc => hm ?_)
        have hc2 : -u.man % 10 = 0 := hc
        omega
  · exact parseUnsignedDec_normalized _ _ h
  · exact parseUnsignedDec_normalized _ _ h

/-- Helper: padding a digit string keeps every character a digit. -/
theorem padZeros_all_isDigit (k : Nat) (l : Str)
    (h : ∀ x ∈ l, x.isDigit = true) :
    ∀ x ∈ padZeros k l, x.isDigit = true := by
  intro x hx
  rw [padZeros] at hx
  rcases List.mem_append.mp hx with hx | hx
  · rw [List.eq_of_mem_replicate hx]; decide
  · exact h x hx

/-- Helper: padding reaches the requested width. -/
theorem padZeros_length (k : Nat) (l : Str) : k ≤ (padZeros k l).length := by
  rw [padZeros, List.length_append, List.length_replicate]
  omega

/-- Helper: reading back the padded digits of `n` still recovers `n`. -/
theorem natOfChars_padZeros (k n : Nat) :
    natOfChars (padZeros k (natDigits n)) = n := by
  rw [padZeros, natOfChars_pad, natOfChars_natDigits]

/-- Helper: the printed form of a float consists of digits and a point. -/
theorem pyStrNat_chars (n e : Nat) :
    ∀ x ∈ pyStrNat n e, x.isDigit = true ∨ x = '.' := by
  intro x hx
  rw [pyStrNat] at hx
  by_cases he : e = 0
  · rw [if_pos he] at hx
    rcases List.mem_append.mp hx with hx | hx
    · exact Or.inl (natDigits_all_isDigit n x hx)
    · simp at hx
      rcases hx with rfl | rfl
      · exact Or.inr rfl
      · exact Or.inl (by decide)
  · rw [if_neg he] at hx
    dsimp only at hx
    have hall := padZeros_all_isDigit (e + 1) (natDigits n) (natDigits_all_isDigit n)
    rcases List.mem_append.mp hx with hx | hx
    · exact Or.inl (hall x (List.take_subset _ _ hx))
    · rcases List.mem_cons.mp hx with rfl | hx
      · exact Or.inr rfl
      · exact Or.inl (hall x (List.drop_subset _ _ hx))

/-- Helper: the head of a non-empty left part decides the head of an
append. -/
theorem headD_append_left {A : Str} (B : Str) (h : A ≠ []) (d : Char) :
    (A ++ B).headD d = A.headD d := by
  cases A with
  | nil => exact absurd rfl h
  | cons a t => rfl

/-- Helper: the defaulted head of a non-empty list is an element. -/
theorem headD_mem {l : Str} (h : l ≠ []) (d : Char) : l.headD d ∈ l := by
  cases l with
  | nil => exact absurd rfl h
  | cons a t => exact List.mem_cons_self a t

/-- Helper: the printed form of a float is never empty. -/
theorem pyStrNat_ne_nil (n e : Nat) : pyStrNat n e ≠ [] := by
  rw [pyStrNat]
  by_cases he : e = 0
  · rw [if_pos he]
    intro hc
    rcases List.append_eq_nil.mp hc with ⟨_, hc2⟩
    cases hc2
  · rw [if_neg he]
    dsimp only
    intro hc
    rcases List.append_eq_nil.mp hc with ⟨_, hc2⟩
    cases hc2

/-- Helper: the printed form of a non-negative float starts with a digit. -/
theorem pyStrNat_headD_isDigit (n e : Nat) :
    ((pyStrNat n e).headD ' ').isDigit = true := by
  rw [pyStrNat]
  by_cases he : e = 0
  · rw [if_pos he, headD_append_left _ (natDigits_ne_nil n)]
    exact natDigits_all_isDigit n _ (headD_mem (natDigits_ne_nil n) ' ')
  · rw [if_neg he]
    dsimp only
    have hlen := padZeros_length (e + 1) (natDigits n)
    have hA : (padZeros (e + 1) (natDigits n)).take
        ((padZeros (e + 1) (natDigits n)).length - e) ≠ [] := by
      intro hc
      have := congrArg List.length hc
      rw [List.length_take] at this
      simp at this
      omega
    rw [headD_append_left _ hA]
    exact padZeros_all_isDigit _ _ (natDigits_all_isDigit n) _
      (List.take_subset _ _ (headD_mem hA ' '))

/-- Helper: parsing the printed form of an integral float value recovers
it, the trailing `.0` collapsing under normalization. -/
theorem parseUnsignedDec_pyStrNat_zero (n : Nat) :
    parseUnsignedDec (pyStrNat n 0) = some ⟨n, 0⟩ := by
  rw [pyStrNat, if_pos rfl]
  have hsplit : splitOnChar '.' (natDigits n ++ '.' :: ['0']) =
      [natDigits n, ['0']] :=
    splitOnChar_point '.' (natDigits n) ['0']
      (fun x hx => ne_of_isDigit (natDigits_all_isDigit n x hx) '.' (by decide))
      (fun x hx => by simp at hx; subst hx; decide)
  rw [parseUnsignedDec, hsplit]
  dsimp only
  have hcond : (natDigits n ++ ['0']) ≠ [] ∧
      (natDigits n ++ ['0']).all Char.isDigit = true := by
    constructor
    · intro hc
      rcases List.append_eq_nil.mp hc with ⟨_, hc2⟩
      cases hc2
    · rw [List.all_eq_true]
      intro x hx
      rcases List.mem_append.mp hx with hx | hx
      · exact natDigits_all_isDigit n x hx
      · simp at hx; subst hx; decide
  rw [if_pos hcond]
  have hval : natOfChars (natDigits n ++ ['0']) = n * 10 := by
    have h48 : '0'.toNat - 48 = 0 := by decide
    rw [natOfChars_append, List.foldl_cons, List.foldl_nil]
    show natOfChars (natDigits n) * 10 + ('0'.toNat - 48) = n * 10
    rw [natOfChars_natDigits, h48]
    omega
  rw [hval]
  have : ((n * 10 : Nat) : Int) = (n : Int) * 10 := by push_cast; ring
  rw [List.length_singleton, this, normalizeDec,
    if_pos (Int.mul_emod_left _ _), Int.mul_ediv_cancel _ (by norm_num)]
  rfl

/-- Helper: parsing the printed form of a fractional float value recovers
its mantissa and exponent (up to normalization). -/
theorem parseUnsignedDec_pyStrNat_pos (n e : Nat) (he : e ≠ 0) :
    parseUnsignedDec (pyStrNat n e) = some (normalizeDec n e) := by
  rw [pyStrNat, if_neg he]
  dsimp only
  set ds := padZeros (e + 1) (natDigits n) with hds
  have hall : ∀ x ∈ ds, x.isDigit = true :=
    padZeros_all_isDigit _ _ (natDigits_all_isDigit n)
  have hlen : e + 1 ≤ ds.length := padZeros_length _ _
  have htad : ds.take (ds.length - e) ++ ds.drop (ds.length - e) = ds :=
    List.take_append_drop _ _
  have hsplit : splitOnChar '.'
      (ds.take (ds.length - e) ++ '.' :: ds.drop (ds.length - e)) =
      [ds.take (ds.length - e), ds.drop (ds.length - e)] :=
    splitOnChar_point '.' _ _
      (fun x hx => ne_of_isDigit (hall x (List.take_subset _ _ hx)) '.' (by decide))
      (fun x hx => ne_of_isDigit (hall x (List.drop_subset _ _ hx)) '.' (by decide))
  rw [parseUnsignedDec, hsplit]
  dsimp only
  have hcond : (ds.take (ds.length - e) ++ ds.drop (ds.length - e)) ≠ [] ∧
      (ds.take (ds.length - e) ++ ds.drop (ds.length - e)).all Char.isDigit
        = true := by
    constructor
    · rw [htad]
      intro hc
      rw [hc] at hlen
      simp at hlen
    · rw [htad, List.all_eq_true]
      exact hall
  rw [if_pos hcond]
  have h1 : natOfChars (ds.take (ds.length - e) ++ ds.drop (ds.length - e))
      = n := by
    rw [htad, hds, natOfChars_padZeros]
  have h2 : (ds.drop (ds.length - e)).length = e := by
    rw [List.length_drop]
    omega
  rw [h1, h2]

/-- Helper: the printed form of a float carries no whitespace, so
stripping it is the identity. -/
theorem pyTrim_pyStrNat (n e : Nat) : pyTrim (pyStrNat n e) = pyStrNat n e :=
  pyTrim_eq_self _ (fun x hx => by
    rcases pyStrNat_chars n e x hx with h | rfl
    · exact not_ws_of_isDigit h
    · decide)

/-- Helper: stripping a printed float, sign included, is the identity. -/
theorem pyTrim_pyStr (d : Dec) : pyTrim (pyStr d) = pyStr d := by
  rw [pyStr]
  by_cases h : d.man < 0
  · rw [if_pos h]
    apply pyTrim_eq_self
    intro x hx
    rcases List.mem_cons.mp hx with rfl | hx
    · decide
    · rcases pyStrNat_chars _ _ x hx with hd | rfl
      · exact not_ws_of_isDigit hd
      · decide
  · rw [if_neg h]
    exact pyTrim_pyStrNat _ _

/-- Helper: the serialized price field is never empty. -/
theorem pyStr_ne_nil (d : Dec) : pyStr d ≠ [] := by
  rw [pyStr]
  by_cases h : d.man < 0
  · rw [if_pos h]; exact List.cons_ne_nil _ _
  · rw [if_neg h]; exact pyStrNat_ne_nil _ _

/-- Helper: `float(str(x)) == x` — parsing the printed form of a canonical
float value recovers it exactly. -/
theorem pyFloat_pyStr (d : Dec) (h : d.normalized) : pyFloat (pyStr d) = some d := by
  obtain ⟨m, e⟩ := d
  rw [pyFloat]
  rw [pyTrim_pyStr]
  by_cases hneg : m < 0
  · have hS : pyStr ⟨m, e⟩ = '-' :: pyStrNat m.natAbs e := by
      rw [pyStr, if_pos hneg]
    rw [hS]
    rw [if_pos ⟨List.cons_ne_nil _ _, rfl⟩]
    dsimp only [List.tail]
    by_cases he : e = 0
    · subst he
      rw [parseUnsignedDec_pyStrNat_zero]
      dsimp only [Option.map]
      have hm : -((m.natAbs : Nat) : Int) = m := by omega
      rw [hm]
    · rcases h with he0 | hm10
      · exact absurd he0 he
      · rw [parseUnsignedDec_pyStrNat_pos _ _ he]
        have hm10b : ¬ m % 10 = 0 := hm10
        have hnn : ¬ ((m.natAbs : Nat) : Int) % 10 = 0 := by omega
        rw [normalizeDec_eq_self _ _ (Or.inr hnn)]
        dsimp only [Option.map]
        have hm : -((m.natAbs : Nat) : Int) = m := by omega
        rw [hm]
  · have hS : pyStr ⟨m, e⟩ = pyStrNat m.toNat e := by
      rw [pyStr, if_neg hneg]
    rw [hS]
    have hhead := pyStrNat_headD_isDigit m.toNat e
    rw [if_neg (fun hc => ne_of_isDigit hhead '-' (by decide) hc.2),
      if_neg (fun hc => ne_of_isDigit hhead '+' (by decide) hc.2)]
    have hm : ((m.toNat : Nat) : Int) = m := by omega
    by_cases he : e = 0
    · subst he
      rw [parseUnsignedDec_pyStrNat_zero, hm]
    · rcases h with he0 | hm10
      · exact absurd he0 he
      · rw [parseUnsignedDec_pyStrNat_pos _ _ he]
        have hm10b : ¬ m % 10 = 0 := hm10
        have hnn : ¬ ((m.toNat : Nat) : Int) % 10 = 0 := by
          rw [hm]; exact hm10b
        rw [normalizeDec_eq_self _ _ (Or.inr hnn), hm]

/-- Helper: every numeric price `parse_price` yields is canonical. -/
theorem parse_price_fst_normalized (raw : Option Str) (p : Dec)
    (h : (parse_price raw).1 = some p) : p.normalized := by
  rcases raw with _ | r
  · simp [parse_price] at h
  · rw [parse_price] at h
    by_cases hr : r = []
    · rw [if_pos hr] at h
      simp at h
    · rw [if_neg hr] at h
      exact pyFloat_normalized _ _ h

/-- Helper: the numeric price of every record `extract` returns comes out
of the price normalizer. -/
theorem extract_ok_price (url : Str) (soup : List Node) (cat : Catalog)
    (rec : Record) (he : extract url soup cat = .ok rec) :
    ∃ pr : Option Str, rec.price = (parse_price pr).1 := by
  cases hrr : resolveRules cat (get_domain url) with
  | none =>
    simp only [extract, hrr] at he
    cases he
  | some rules =>
    cases hst : sel_one soup rules.title.css rules.title.attr with
    | error e1 =>
      simp only [extract, hrr, hst] at he
      cases he
    | ok t =>
      cases hsp : sel_one soup rules.price.css rules.price.attr with
      | error e2 =>
        simp only [extract, hrr, hst, hsp] at he
        cases he
      | ok pr =>
        cases hsc : (if rules.currency.css ≠ [] then
            sel_one soup rules.currency.css rules.currency.attr
          else .ok none) with
        | error e3 =>
          simp only [extract, hrr, hst, hsp, hsc] at he
          cases he
        | ok cfr =>
          refine ⟨pr, ?_⟩
          simp only [extract, hrr, hst, hsp, hsc] at he
          injection he with h2
          subst h2
          rfl

/-- Claim C7: a record with a present numeric price, appended to the
history log, is returned unchanged by the last-price query for its URL —
the price survives the trip through the text field of the log. -/
theorem c7_roundtrip (url : Str) (soup : List Node) (cat : Catalog)
    (rec : Record) (p : Dec) (ts : Str) (file : Option (List HRow))
    (he : extract url soup cat = .ok rec) (hp : rec.price = some p) :
    last_price_for rec.url (save_history rec ts file) = some p := by
  have hnorm : p.normalized := by
    obtain ⟨pr, hpr⟩ := extract_ok_price url soup cat rec he
    exact parse_price_fst_normalized pr p (by rw [← hpr, hp])
  rw [save_history]
  show (file.getD [] ++ [historyRow ts rec]).foldl (lastPriceStep rec.url) none
      = some p
  rw [List.foldl_append, List.foldl_cons, List.foldl_nil, lastPriceStep]
  have hurl : (historyRow ts rec).url = rec.url := rfl
  have hprice : (historyRow ts rec).price = pyStr p := by
    simp [historyRow, hp]
  rw [if_pos ⟨hurl, by rw [hprice]; exact pyStr_ne_nil p⟩]
  rw [hprice, pyFloat_pyStr p hnorm]

/-- A page whose price element carries the EUR-style price in its
`content` attribute. -/
def c7doc : List Node :=
  [{ attrs := [("content".toList, "1.234,56 €".toList)], text := [],
     matchedBy := [".price".toList] }]

/-- The record the extractor produces for `c7doc`. -/
def c7rec : Record :=
  { url := "https://shop.example/item".toList,
    domain := "shop.example".toList, title := [],
    price := some ⟨123456, 2⟩, currency := some "EUR".toList }

/-- Witness for C7: the concrete EUR-style record round-trips through an
initially missing log file. -/
theorem c7_witness :
    last_price_for c7rec.url
        (save_history c7rec "2026-01-01T00:00:00".toList (some [])) =
      some ⟨123456, 2⟩ :=
  c7_roundtrip "https://shop.example/item".toList c7doc DEFAULT_SELECTORS
    c7rec ⟨123456, 2⟩ "2026-01-01T00:00:00".toList (some [])
    (by decide) (by decide)
